import Mathlib

/-!
Verification of the `mastodon-tools` repository (identity resolution,
paginated retrieval, swim-log extraction and statistics).

The Python sources `mastodon_tools/swimmer.py` and `mastodon_tools/user.py`
are shallowly embedded below:

* calendar dates are modelled as epoch day numbers (`Int`, days since
  1970-01-01), datetimes as minutes since the epoch;
* `dateutil.parse` on the ISO-8601 strings produced by the Mastodon API is
  modelled by `parseTimestamp`, returning the parsed wall-clock time in
  minutes together with the parsed UTC offset;
* timezones are modelled by their UTC offset in minutes (after
  `astimezone`, every computation in the source only depends on the local
  wall-clock value);
* the single regular expression `regex` of `swimmer.py` is modelled by a
  backtracking matcher specialised to that pattern (`searchSwim`);
* Python exceptions are modelled by the `PyErr` error type and fallible
  code returns `Except PyErr`;
* the HTTP layer is modelled by explicit state passing: a `Fetch α`
  computation maps a request log to a result together with the extended
  log, and the remote server's responses are supplied as values
  (a webfinger document and lists of pages).
-/

deriving instance DecidableEq for Except

namespace MastodonTools

/-- Python exception classes raised by the embedded code. -/
inductive PyErr
  | typeError
  | valueError
  | overflowError
  | stopIteration
  | transportError
  | decodeError
deriving DecidableEq, Repr

/-! ## Calendar model

`daysFromCivil` converts a proleptic-Gregorian civil date to a day number
(days since 1970-01-01), the arithmetic Python's `datetime.date` performs
via its ordinal representation.  A date value in the source is modelled by
its day number. -/

/-- Day number (days since 1970-01-01) of the civil date `y-m-d`. -/
def daysFromCivil (y m d : Int) : Int :=
  let yAdj := if m ≤ 2 then y - 1 else y
  let era := yAdj / 400
  let yoe := yAdj - era * 400
  let mp := (m + 9) % 12
  let doy := (153 * mp + 2) / 5 + d - 1
  let doe := yoe * 365 + yoe / 4 - yoe / 100 + doy
  era * 146097 + doe - 719468

/-- The calendar date of a datetime given in minutes since the epoch
(`datetime.date()`). -/
def dateOf (localMin : Int) : Int := localMin / 1440

/-- Python's `date.weekday()`: Monday = 0 … Sunday = 6.
1970-01-01 was a Thursday (= 3). -/
def weekdayOf (day : Int) : Int := (day + 3) % 7

/-! ## Timestamp parsing (`dateutil.parser.parse`)

Only the ISO-8601 shapes produced by the Mastodon API are modelled:
`YYYY-MM-DD`, optionally followed by `THH:MM:SS` (or a space separator)
and an optional offset (`Z`, `+HH:MM` or `-HH:MM`).  The result is the
wall-clock value in minutes since the epoch (seconds are irrelevant at
day granularity) together with the offset in minutes. -/

def isDigitCh (c : Char) : Bool := 48 ≤ c.toNat && c.toNat ≤ 57

def digitVal (c : Char) : Nat := c.toNat - 48

def natOfDigits (cs : List Char) : Nat :=
  cs.foldl (fun a c => a * 10 + digitVal c) 0

/-- Read exactly `n` decimal digits. -/
def readDigits (n : Nat) (cs : List Char) : Option (Nat × List Char) :=
  let pre := cs.take n
  if pre.length = n && pre.all isDigitCh then
    some (natOfDigits pre, cs.drop n)
  else none

def expectCh (c : Char) (cs : List Char) : Option (List Char) :=
  match cs with
  | c2 :: rest => if c2 = c then some rest else none
  | [] => none

/-- Parse a trailing UTC offset: nothing, `Z`, `+HH:MM` or `-HH:MM`.
Returns the offset in minutes. -/
def readOffset (cs : List Char) : Option Int :=
  match cs with
  | [] => some 0
  | ['Z'] => some 0
  | sgn :: rest =>
    (if sgn = '+' then some (1 : Int)
     else if sgn = '-' then some (-1 : Int)
     else none).bind fun sign =>
      (readDigits 2 rest).bind fun (oh, cs1) =>
        (expectCh ':' cs1).bind fun cs2 =>
          (readDigits 2 cs2).bind fun (om, cs3) =>
            if cs3 = [] then some (sign * ((oh : Int) * 60 + om)) else none

/-- Parse an ISO-8601 timestamp string; result = (wall-clock minutes since
epoch, UTC offset in minutes).  `none` models a `ValueError` from
`dateutil.parser.parse`. -/
def parseTimestamp (s : String) : Option (Int × Int) :=
  (readDigits 4 s.toList).bind fun (y, cs1) =>
    (expectCh '-' cs1).bind fun cs2 =>
      (readDigits 2 cs2).bind fun (mo, cs3) =>
        (expectCh '-' cs3).bind fun cs4 =>
          (readDigits 2 cs4).bind fun (da, cs5) =>
            if mo < 1 || 12 < mo || da < 1 || 31 < da then none
            else
              let dayMin : Int := daysFromCivil y mo da * 1440
              match cs5 with
              | [] => some (dayMin, 0)
              | sep :: cs6 =>
                if sep = 'T' || sep = ' ' then
                  (readDigits 2 cs6).bind fun (hh, cs7) =>
                    (expectCh ':' cs7).bind fun cs8 =>
                      (readDigits 2 cs8).bind fun (mi, cs9) =>
                        (expectCh ':' cs9).bind fun cs10 =>
                          (readDigits 2 cs10).bind fun (ss, cs11) =>
                            if 23 < hh || 59 < mi || 59 < ss then none
                            else
                              (readOffset cs11).map fun off =>
                                (dayMin + (hh : Int) * 60 + mi, off)
                else none

/-! ## `get_swim_date` (`swimmer.py`, lines 14-66) -/

/-- `calendar.day_name` under the default locale. -/
def day_name : List String :=
  ["Monday", "Tuesday", "Wednesday", "Thursday", "Friday", "Saturday", "Sunday"]

/-- The `now` argument of `get_swim_date`: either an aware datetime
(a UTC instant, in minutes since the epoch) or a string. -/
inductive NowArg
  | dt (instantMin : Int)
  | str (raw : String)
deriving DecidableEq, Repr

/-- The weekday-branch shift of `get_swim_date`: the difference from the
reference date's weekday to the target weekday `w`, with `0` replaced by
`7`. -/
def weekdayDiff (d w : Int) : Int :=
  if (weekdayOf d - w) % 7 = 0 then 7 else (weekdayOf d - w) % 7

/-- `get_swim_date(day, now, tz)` with the timezone given by its UTC
offset in minutes.  A string `now` is parsed and its offset replaced by
UTC (`parse(now).replace(tzinfo=UTC)`), so the wall-clock value is
reinterpreted as the instant.  The result is the day number of the
resolved date. -/
def get_swim_date (day : String) (now : NowArg) (tzOffMin : Int) :
    Except PyErr Int :=
  let localMin? : Except PyErr Int :=
    match now with
    | .dt i => .ok (i + tzOffMin)
    | .str raw =>
      match parseTimestamp raw with
      | none => .error .valueError
      | some (wall, _off) => .ok (wall + tzOffMin)
  match localMin? with
  | .error e => .error e
  | .ok localMin =>
    if day = "Today" then .ok (dateOf localMin)
    else if day = "Yesterday" then .ok (dateOf (localMin - 1440))
    else
      match day_name.findIdx? (fun n => n == day) with
      | none => .error .valueError
      | some w =>
        .ok (dateOf (localMin - weekdayDiff (dateOf localMin) (w : Int) * 1440))

/-! ## The swim-log regular expression (`swimmer.py`, lines 69-71)

`re.search` with the pattern

  `<p>(?P<day>(To|Yester|Mon|Tues|Wednes|Thurs|Fri|Satur|Sun)day).*: (?P<lapcount>[\d\.]*) laps for (?P<distance>\d*)m`

is modelled by `searchSwim`.  The model implements Python's leftmost
search and greedy backtracking specialised to this pattern:

* the alternation followed by the literal `day` matches exactly one of the
  nine tokens of `regexDayTokens` (no token is a prefix of another, so the
  first-in-order token that is a prefix of the input is the unique one);
* `.*` (which cannot cross a newline) is greedy, so the longest skip whose
  continuation matches wins;
* `[\d\.]*` and `\d*` are greedy runs followed by literals that cannot
  start with a digit or dot, so the maximal run is the only candidate. -/

/-- The day alternatives of the pattern, each completed with the literal
`day`, in the pattern's alternation order. -/
def regexDayTokens : List String :=
  ["Today", "Yesterday", "Monday", "Tuesday", "Wednesday", "Thursday",
   "Friday", "Saturday", "Sunday"]

/-- Match the day group at the current position. -/
def matchDayTok (cs : List Char) : Option (String × List Char) :=
  regexDayTokens.findSome? fun t =>
    if cs.take t.toList.length = t.toList then some (t, cs.drop t.toList.length)
    else none

/-- Match `: (?P<lapcount>[\d\.]*) laps for (?P<distance>\d*)m` at the
current position, returning the two captured groups. -/
def matchTail (cs : List Char) : Option (String × String) :=
  match cs with
  | ':' :: ' ' :: rest =>
    let laps := rest.takeWhile fun c => isDigitCh c || c == '.'
    let r1 := rest.drop laps.length
    if r1.take 10 = " laps for ".toList then
      let r2 := r1.drop 10
      let dist := r2.takeWhile isDigitCh
      match r2.drop dist.length with
      | 'm' :: _ => some (String.mk laps, String.mk dist)
      | _ => none
    else none
  | _ => none

/-- Greedy `.*`: try the longest skip first. -/
def tryDotStar (rest : List Char) : Nat → Option (String × String)
  | 0 => matchTail rest
  | k + 1 => (matchTail (rest.drop (k + 1))).or (tryDotStar rest k)

/-- Try to match the whole pattern at the current position. -/
def tryMatchAt (cs : List Char) : Option (String × String × String) :=
  if cs.take 3 = "<p>".toList then
    match matchDayTok (cs.drop 3) with
    | none => none
    | some (day, rest) =>
      let lim := (rest.takeWhile fun c => c != '\n').length
      (tryDotStar rest lim).map fun g => (day, g.1, g.2)
  else none

/-- `re.search(regex, content)`: leftmost match, returning the captured
groups `(day, lapcount, distance)`. -/
def searchSwim : List Char → Option (String × String × String)
  | [] => none
  | c :: rest => (tryMatchAt (c :: rest)).or (searchSwim rest)

/-! ## Statuses and swim entries -/

/-- One fetched status, with the fields the pipeline reads.  `tags` holds
the tag names (the source extracts `tag["name"]` from each tag object). -/
structure Status where
  id : String
  created_at : String
  content : String
  tags : List String
  uri : String
deriving DecidableEq, Repr

/-- One parsed swim-log entry.  The source stores the date formatted as
`"%Y-%m-%d"`; it is modelled by the date's day number (the formatting is
injective, and every later use — sorting and equality with today's
formatted date — only depends on the date value). -/
structure SwimEntry where
  date : Int
  laps : String
  distance : String
  uri : String
deriving DecidableEq, Repr

/-- `str.startswith` on Python strings. -/
def strStartsWith (s p : String) : Bool :=
  s.toList.take p.toList.length == p.toList

/-- Stable insertion of `x` after every element `y` with `le y x`
(a later-arriving element goes after equal keys). -/
def insStable (le : α → α → Bool) (x : α) : List α → List α
  | [] => [x]
  | y :: ys => if le y x then y :: insStable le x ys else x :: y :: ys

/-- Python's `sorted` (a stable sort); any stable sort computes the same
list, so insertion sort is used. -/
def pySorted (le : α → α → Bool) (l : List α) : List α :=
  l.foldl (fun acc x => insStable le x acc) []

/-! ## `MastodonSwimmer.swims` (`swimmer.py`, lines 78-117)

The comprehension cascade filters the statuses to those tagged `"swim"`
whose `created_at` string starts with `str(datetime.now().year)`, attaches
`re.search(regex, content)` to each survivor, and then builds one entry
dict per survivor by subscripting the match object.  When the search
returned `None`, that subscript (`None["day"]`) raises a `TypeError` —
there is no filter on the match result.  The ambient `datetime.now()` year
and the local timezone are passed as parameters `currentYear` and
`tzOffMin`. -/

/-- Build the entry dict of one filtered status (the body of the outermost
comprehension). -/
def entryOf (tzOffMin : Int) (st : Status) : Except PyErr SwimEntry :=
  match searchSwim st.content.toList with
  | none => .error .typeError
  | some (dayTok, laps, dist) =>
    match get_swim_date dayTok (.str st.created_at) tzOffMin with
    | .error e => .error e
    | .ok d => .ok ⟨d, laps, dist, st.uri⟩

/-- Evaluate the outermost comprehension left to right; the first raised
exception aborts it. -/
def buildEntries (tzOffMin : Int) : List Status → Except PyErr (List SwimEntry)
  | [] => .ok []
  | st :: rest =>
    match entryOf tzOffMin st with
    | .error e => .error e
    | .ok e =>
      match buildEntries tzOffMin rest with
      | .error e2 => .error e2
      | .ok es => .ok (e :: es)

/-- The filter of the middle comprehension. -/
def swimFilter (currentYear : Int) (st : Status) : Bool :=
  st.tags.contains "swim" && strStartsWith st.created_at (toString currentYear)

/-- `MastodonSwimmer.swims` as a function of the fetched status values (in
dict order), the current year and the local timezone. -/
def swims (statuses : List Status) (currentYear : Int) (tzOffMin : Int) :
    Except PyErr (List SwimEntry) :=
  match buildEntries tzOffMin (statuses.filter (swimFilter currentYear)) with
  | .error e => .error e
  | .ok entries => .ok (pySorted (fun a b => decide (a.date ≤ b.date)) entries)

/-! ## Binary64 floating point

Python floats are IEEE-754 binary64.  Every finite binary64 value is an
integer multiple of 2⁻¹⁰⁷⁴, so a finite float is represented exactly by
its value in units of 2⁻¹⁰⁷⁴ (its *scaled* value, an integer — a
canonical representation, so representation equality is value equality).
Operations are defined by correct rounding of the exact result to the
binary64 grid, ties to even, which is IEEE round-to-nearest-even:

* at magnitudes below 2⁵² scaled (i.e. below 2⁻¹⁰²², the subnormal and
  small-normal border), the grid spacing is 1 scaled unit (2⁻¹⁰⁷⁴);
* at magnitudes in [2ᵉ, 2ᵉ⁺¹) scaled with `e ≥ 52`, the spacing is
  2ᵉ⁻⁵²  (53-bit significands);
* results of 2²⁰⁹⁸ scaled (= 2¹⁰²⁴) or more after rounding overflow.
-/

/-- Exact `math.ceil(a / b)` of an integer quotient with positive
divisor, written with executable integer division.
`intCeilDiv_eq_ceil` below proves it equal to the ceiling of the exact
rational quotient. -/
def intCeilDiv (a b : Int) : Int := -((-a) / b)

/-- Fuelled tail-recursive `⌊log₂ n⌋`; `ilog2 n n 0` is `⌊log₂ n⌋` for
`n ≥ 1` (the fuel `n` always suffices because the recursion halves its
argument). -/
def ilog2 : Nat → Nat → Nat → Nat
  | 0, _, acc => acc
  | fuel + 1, n, acc => if n ≤ 1 then acc else ilog2 fuel (n / 2) (acc + 1)

/-- Round the rational `n / d` to the nearest natural number, ties to
even. -/
def roundHalfEvenNat (n d : Nat) : Nat :=
  let q := n / d
  let r := n % d
  if 2 * r < d then q
  else if d < 2 * r then q + 1
  else if q % 2 = 0 then q else q + 1

/-- Correctly round the nonnegative rational `n / d` — given in
2⁻¹⁰⁷⁴-scaled units — to the binary64 grid, ties to even; `none` is
overflow beyond the largest finite double.  In the normal branch `e` is
`⌊log₂ (n / d)⌋` (computed from `⌊log₂ n⌋ - ⌊log₂ d⌋`, corrected by one
comparison) and the grid spacing is `2 ^ (e - 52)`; rounding up to a full
power of two lands on the next binade's grid, which is the correct
value. -/
def roundPosScaled (n d : Nat) : Option Nat :=
  if n < d * 2 ^ 52 then
    some (roundHalfEvenNat n d)
  else
    let c := ilog2 n n 0 - ilog2 d d 0
    let e := if d * 2 ^ c ≤ n then c else c - 1
    let g := 2 ^ (e - 52)
    let r := roundHalfEvenNat n (d * g) * g
    if r < 2 ^ 2098 then some r else none

/-- A Python float: a finite binary64 given by its 2⁻¹⁰⁷⁴-scaled value,
or a special value. -/
inductive PyFloat
  | finite (scaled : Int)
  | inf
  | neginf
  | nan
deriving DecidableEq, Repr

/-- Binary64 addition: the sum of two finite doubles is exact in scaled
units and is rounded back to the grid (rounding is sign-symmetric);
overflow gives the signed infinity, as float addition does in Python. -/
def fadd : PyFloat → PyFloat → PyFloat
  | .finite a, .finite b =>
    let s := a + b
    (match roundPosScaled s.natAbs 1 with
     | some v => .finite (if s < 0 then -(v : Int) else (v : Int))
     | none => if s < 0 then .neginf else .inf)
  | .nan, _ => .nan
  | _, .nan => .nan
  | .inf, .neginf => .nan
  | .neginf, .inf => .nan
  | .inf, _ => .inf
  | _, .inf => .inf
  | .neginf, _ => .neginf
  | _, .neginf => .neginf

/-- Python `int.__truediv__`: the correctly rounded binary64 quotient of
two integers (here always with a positive divisor), in scaled units;
CPython raises `OverflowError` when the quotient leaves the double
range.  Round-to-nearest-even is symmetric, so the sign is applied after
rounding the magnitude. -/
def intTrueDiv (a b : Int) : Except PyErr Int :=
  match roundPosScaled (a.natAbs * 2 ^ 1074) b.natAbs with
  | some v => .ok (if a < 0 then -(v : Int) else (v : Int))
  | none => .error .overflowError

/-- `math.ceil` of a finite double given by its scaled value.  (The scale
factor is computed in `Nat` — the kernel evaluates `Nat.pow` natively.) -/
def floatCeil (scaled : Int) : Int := intCeilDiv scaled ((2 ^ 1074 : Nat) : Int)

/-! ## Statistics (`swimmer.py`, lines 119-165) -/

/-- Python `float()` restricted to the strings the `[\d\.]*` group can
produce: digits and dots; valid iff there is at least one digit and at
most one dot.  The value is the decimal literal correctly rounded to
binary64 (a literal too large for the double range parses to `inf`, as
in Python). -/
def parseFloat (s : String) : Option PyFloat :=
  let cs := s.toList
  if cs.any isDigitCh && cs.all (fun c => isDigitCh c || c == '.')
      && cs.count '.' ≤ 1 then
    let intPart := cs.takeWhile isDigitCh
    let rest := cs.drop intPart.length
    let frac := match rest with
      | '.' :: f => f
      | _ => []
    let n := natOfDigits intPart * 10 ^ frac.length + natOfDigits frac
    some (match roundPosScaled (n * 2 ^ 1074) (10 ^ frac.length) with
          | some v => .finite (v : Int)
          | none => .inf)
  else none

/-- Python `int()` restricted to the strings the `\d*` group can produce:
valid iff nonempty and all digits. -/
def parseIntStr (s : String) : Option Int :=
  let cs := s.toList
  if !cs.isEmpty && cs.all isDigitCh then some (natOfDigits cs) else none

/-- `sum(float(swim["laps"]) for swim in self.swims)`: a binary64 left
fold in entry order (`sum` starts from the int `0`, and `0 + x` is the
exact float `x`); a non-numeric string raises `ValueError`. -/
def sumLaps (acc : PyFloat) : List SwimEntry → Except PyErr PyFloat
  | [] => .ok acc
  | s :: rest =>
    match parseFloat s.laps with
    | none => .error .valueError
    | some q => sumLaps (fadd acc q) rest

def total_laps (sw : List SwimEntry) : Except PyErr PyFloat :=
  sumLaps (.finite 0) sw

/-- `sum(int(swim["distance"]) for swim in self.swims)`. -/
def sumDistance (acc : Int) : List SwimEntry → Except PyErr Int
  | [] => .ok acc
  | s :: rest =>
    match parseIntStr s.distance with
    | none => .error .valueError
    | some n => sumDistance (acc + n) rest

def total_distance (sw : List SwimEntry) : Except PyErr Int := sumDistance 0 sw

/-- `remaining_distance = 100000 - total_distance`. -/
def remaining_distance (totalDistance : Int) : Int := 100000 - totalDistance

/-- `MastodonSwimmer.remaining_days`: days from today to December 31 of
today's year, minus one if some swim is dated today.  `today` is passed as
a civil date `(y, mo, da)`. -/
def remaining_days (sw : List SwimEntry) (y mo da : Int) : Int :=
  let today := daysFromCivil y mo da
  let base := daysFromCivil y 12 31 - today
  if sw.any (fun s => s.date == today) then base - 1 else base

/-- `MastodonSwimmer.average_distance`:
`math.ceil(remaining_distance / remaining_days if remaining_days > 0 else 0)`.
Under the guard, `/` is Python int true division producing a correctly
rounded binary64 (`OverflowError` past the double range) and `math.ceil`
takes its exact ceiling; the else branch is `math.ceil` of the int `0`. -/
def average_distance (remainingDistance remainingDays : Int) :
    Except PyErr Int :=
  if 0 < remainingDays then
    match intTrueDiv remainingDistance remainingDays with
    | .ok v => .ok (floatCeil v)
    | .error e => .error e
  else .ok 0

/-- `MastodonSwimmer.average_laps`: `math.ceil(average_distance / 25)`,
again via a binary64 true division. -/
def average_laps (averageDistance : Int) : Except PyErr Int :=
  match intTrueDiv averageDistance 25 with
  | .ok v => .ok (floatCeil v)
  | .error e => .error e

/-- The `statistics` dict. -/
structure Stats where
  total_laps : PyFloat
  total_distance : Int
  remaining_distance : Int
  remaining_days : Int
  required_average_distance : Int
  required_average_laps : Int
deriving DecidableEq, Repr

/-- `MastodonSwimmer.statistics` as a function of the fetched status
values and the evaluation date.  Each property of the source recomputes
`swims` from a fresh fetch; with the remote data fixed every recomputation
returns the same value, so it is computed once here.  The dict fields are
evaluated in order; a raised exception aborts the dict. -/
def computeStats (values : List Status) (y mo da : Int) (tzOffMin : Int) :
    Except PyErr Stats :=
  match swims values y tzOffMin with
  | .error e => .error e
  | .ok sw =>
    match total_laps sw with
    | .error e => .error e
    | .ok tl =>
      match total_distance sw with
      | .error e => .error e
      | .ok td =>
        let rdist := remaining_distance td
        let rdays := remaining_days sw y mo da
        match average_distance rdist rdays with
        | .error e => .error e
        | .ok ad =>
          match average_laps ad with
          | .error e => .error e
          | .ok al => .ok ⟨tl, td, rdist, rdays, ad, al⟩

/-! ## Python dict semantics

The pagination loops store records with `result[key] = record`: an
existing key keeps its position and gets the new value, a new key is
appended.  A dict is modelled as its insertion-ordered entry list. -/

/-- `d[k] = v` on a Python dict. -/
def dinsert (d : List (String × α)) (k : String) (v : α) : List (String × α) :=
  if d.any (fun p => p.1 == k) then
    d.map (fun p => if p.1 == k then (k, v) else p)
  else d ++ [(k, v)]

/-- `d[k]` / `k in d` on a Python dict. -/
def dlookup : List (String × α) → String → Option α
  | [], _ => none
  | p :: rest, k => if p.1 == k then some p.2 else dlookup rest k

/-- `d.values()` of a Python dict. -/
def dvalues (d : List (String × α)) : List α := d.map (fun p => p.2)

/-! ## `MastodonUser` (`user.py`)

The remote server's behaviour is supplied as data: the webfinger JSON
document, and the page sequences the directory and statuses endpoints
serve (each page is the JSON array of one response plus whether the
response carried a `Link rel="next"` header; the page after a `next` link
is the next list element).  Every HTTP GET is recorded in a request log:
a `Fetch α` maps the log so far to a result and the extended log. -/

/-- One link of the webfinger document. -/
structure WFLink where
  rel : String
  type : String
  href : String
deriving DecidableEq, Repr

/-- The webfinger JSON document. -/
structure Webfinger where
  links : List WFLink
deriving DecidableEq, Repr

/-- A directory record (the fields the source reads). -/
structure Profile where
  uri : String
  id : String
deriving DecidableEq, Repr

/-- One page served by a paginated endpoint. -/
structure Page (α : Type) where
  records : List α
  hasNext : Bool
deriving DecidableEq, Repr

/-- One HTTP GET, by endpoint (and page number for paginated endpoints). -/
inductive Req
  | webfinger
  | directory (page : Nat)
  | statuses (page : Nat)
deriving DecidableEq, Repr

/-- A fetching computation: request log in, result and request log out. -/
abbrev Fetch (α : Type) := List Req → Except PyErr α × List Req

/-- The links-with-`rel="next"` page sequences are well formed when every
page except the last announces a next page and the last does not (the
loop then consumes exactly the sequence). -/
def chain : List (Page α) → Bool
  | [] => false
  | [p] => !p.hasNext
  | p :: rest => p.hasNext && chain rest

/-- All records served by a page sequence, in fetch order. -/
def flatRecords (pages : List (Page α)) : List α :=
  pages.flatMap (fun p => p.records)

/-- `MastodonUser.activity_url`: GET the webfinger document and take the
first link with `type == "application/activity+json"` and
`rel == "self"`; `next` on an exhausted generator raises `StopIteration`
(the failure §7 of the spec names `ProtocolError`). -/
def selfLink? (wf : Webfinger) : Option WFLink :=
  wf.links.find? (fun l => l.type == "application/activity+json" && l.rel == "self")

def activity_url (wf : Webfinger) : Fetch String := fun log =>
  let log := log ++ [Req.webfinger]
  match selfLink? wf with
  | none => (.error .stopIteration, log)
  | some l => (.ok l.href, log)

/-- The `while True` pagination loop shared by `directory` and
`statuses`: GET a page, merge its records by key, stop when the response
has no `next` link.  Requesting past the served sequence is a connection
failure (`RequestException`). -/
def paginate (key : α → String) (mk : Nat → Req) :
    List (Page α) → Nat → List (String × α) → Fetch (List (String × α))
  | [], _, _ => fun log => (.error .transportError, log)
  | p :: rest, i, acc => fun log =>
    let log := log ++ [mk i]
    let acc2 := p.records.foldl (fun d r => dinsert d (key r) r) acc
    if p.hasNext then paginate key mk rest (i + 1) acc2 log
    else (.ok acc2, log)

/-- `MastodonUser.directory`: deriving the directory URL re-reads
`activity_url` (a fresh webfinger GET), then the pagination loop keyed by
each record's `uri`. -/
def directory (wf : Webfinger) (dp : List (Page Profile)) :
    Fetch (List (String × Profile)) := fun log =>
  match activity_url wf log with
  | (.error e, log) => (.error e, log)
  | (.ok _au, log) => paginate (fun p => p.uri) Req.directory dp 0 [] log

/-- `MastodonUser.profile`: evaluates `self.activity_url` first, then
`self.directory`, then looks the activity URL up in the directory dict;
no match raises `StopIteration`. -/
def profileF (wf : Webfinger) (dp : List (Page Profile)) : Fetch Profile :=
  fun log =>
  match activity_url wf log with
  | (.error e, log) => (.error e, log)
  | (.ok au, log) =>
    match directory wf dp log with
    | (.error e, log) => (.error e, log)
    | (.ok dir, log) =>
      match dlookup dir au with
      | some p => (.ok p, log)
      | none => (.error .stopIteration, log)

/-- `MastodonUser.statuses`: building `statuses_url` evaluates
`self.mastodon_server` (an `activity_url` chain) and then
`self.profile_id` (a `profile` chain), then runs the pagination loop
keyed by each status's `id`. -/
def statusesF (wf : Webfinger) (dp : List (Page Profile))
    (sp : List (Page Status)) : Fetch (List (String × Status)) := fun log =>
  match activity_url wf log with
  | (.error e, log) => (.error e, log)
  | (.ok _base, log) =>
    match profileF wf dp log with
    | (.error e, log) => (.error e, log)
    | (.ok _p, log) => paginate (fun s => s.id) Req.statuses sp 0 [] log

/-- The full pipeline behind `MastodonSwimmer.statistics`: fetch the
statuses, take the dict values, compute the statistics. -/
def pipelineStats (wf : Webfinger) (dp : List (Page Profile))
    (sp : List (Page Status)) (y mo da tzOffMin : Int) : Except PyErr Stats :=
  match statusesF wf dp sp [] with
  | (.error e, _) => .error e
  | (.ok dict, _) => computeStats (dvalues dict) y mo da tzOffMin

/-! ## Helper lemmas -/

/-- Shifting a datetime by whole days shifts its date by that many days. -/
lemma dateOf_sub_days (lm k : Int) : dateOf (lm - k * 1440) = dateOf lm - k := by
  unfold dateOf; omega

/-- The weekday shift is between 1 and 7 and lands on the target weekday. -/
lemma weekdayDiff_spec (d w : Int) (h0 : 0 ≤ w) (h7 : w < 7) :
    1 ≤ weekdayDiff d w ∧ weekdayDiff d w ≤ 7 ∧
      weekdayOf (d - weekdayDiff d w) = w := by
  unfold weekdayDiff weekdayOf; omega

/-- `intCeilDiv` computes the ceiling of the exact rational quotient. -/
lemma intCeilDiv_eq_ceil (a b : Int) (hb : 0 < b) :
    intCeilDiv a b = Int.ceil ((a : ℚ) / (b : ℚ)) := by
  have hbt : ((b.toNat : ℕ) : ℤ) = b := Int.toNat_of_nonneg hb.le
  have hbq : ((b.toNat : ℕ) : ℚ) = (b : ℚ) := by exact_mod_cast hbt
  have h1 : ((-a : ℤ) : ℚ) / ((b.toNat : ℕ) : ℚ) = -((a : ℚ) / (b : ℚ)) := by
    rw [hbq]; push_cast; ring
  have h2 : (⌈(a : ℚ) / (b : ℚ)⌉ : ℤ) = -⌊((-a : ℤ) : ℚ) / ((b.toNat : ℕ) : ℚ)⌋ := by
    rw [h1, Int.floor_neg, neg_neg]
  rw [h2, Rat.floor_intCast_div_natCast, hbt]
  rfl

/-- `List.any` with a `==`-test is membership-exists. -/
lemma any_date_eq (sw : List SwimEntry) (t : Int) :
    (sw.any fun s => s.date == t) = true ↔ ∃ s ∈ sw, s.date = t := by
  simp [List.any_eq_true]

/-! ## Claim theorems -/

/-- C1 (code_bug evaluation): a status tagged `"swim"`, created in the
current year, whose content does not match the swim-log pattern makes the
`swims` computation raise `TypeError` (the comprehension subscripts the
`None` returned by `re.search`), instead of skipping the post silently;
a parseable post in the same batch does not survive either. -/
theorem c1_swims_typeerror_on_unmatched_content :
    swims [⟨"1", "2026-06-11T08:00:00Z", "<p>hello</p>", ["swim"], "u1"⟩]
        2026 0 = .error .typeError ∧
    swims [⟨"1", "2026-06-11T08:00:00Z", "<p>hello</p>", ["swim"], "u1"⟩,
           ⟨"2", "2026-06-09T08:00:00Z",
            "<p>Monday swim: 40 laps for 1000m</p>", ["swim"], "u2"⟩]
        2026 0 = .error .typeError := by
  constructor
  · decide
  · decide

set_option maxRecDepth 20000 in
/-- C6 counterexample: with one day remaining and
`total_distance = 100000 + 2⁵³ + 1` (so `remaining_distance = -(2⁵³+1)`),
the claimed exact ceiling is `-(2⁵³) - 1`, but the code's binary64 true
division rounds `-(2⁵³+1)` to `-(2⁵³)` (tie to even mantissa), so
`required_average_distance` is `-(2⁵³)` — the claim fails for this value
of `total_distance`. -/
theorem c6_float_ceiling_counterexample :
    remaining_days [] 2024 12 30 = 1 ∧
    average_distance (remaining_distance (100000 + 2 ^ 53 + 1))
        (remaining_days [] 2024 12 30) = .ok (-(2 ^ 53)) ∧
    Int.ceil ((remaining_distance (100000 + 2 ^ 53 + 1) : ℚ) /
        ((remaining_days [] 2024 12 30 : Int) : ℚ)) = -(2 ^ 53) - 1 ∧
    (-(2 ^ 53) : Int) ≠ -(2 ^ 53) - 1 := by
  refine ⟨by decide, by decide, ?_, by decide⟩
  have hq : ((remaining_distance (100000 + 2 ^ 53 + 1) : Int) : ℚ) /
      ((remaining_days [] 2024 12 30 : Int) : ℚ) =
      ((-(2 ^ 53 + 1) : Int) : ℚ) := by
    rw [show remaining_days [] 2024 12 30 = 1 from by decide,
        show remaining_distance (100000 + 2 ^ 53 + 1) = -(2 ^ 53 + 1) from by
          decide]
    norm_num
  rw [hq, Int.ceil_intCast]
  norm_num

/-- C6 (amended): `required_average_distance` is `0` when
`remaining_days ≤ 0` (no division by zero or by a negative count);
otherwise it is the exact ceiling of the binary64 correctly-rounded
quotient `remaining_distance / remaining_days` (`OverflowError` past the
double range), and whenever that rounded quotient is exact it equals
`ceil(remaining_distance / remaining_days)` as the original claim
stated. -/
theorem c6_average_distance_amended (sw : List SwimEntry)
    (y mo da td : Int) :
    (remaining_days sw y mo da ≤ 0 →
      average_distance (remaining_distance td) (remaining_days sw y mo da)
        = .ok 0) ∧
    (0 < remaining_days sw y mo da →
      average_distance (remaining_distance td) (remaining_days sw y mo da)
        = match intTrueDiv (remaining_distance td) (remaining_days sw y mo da)
          with
          | .ok v => .ok (floatCeil v)
          | .error e => .error e) ∧
    (∀ v : Int, 0 < remaining_days sw y mo da →
      intTrueDiv (remaining_distance td) (remaining_days sw y mo da) = .ok v →
      (v : ℚ) = (remaining_distance td : ℚ) /
          ((remaining_days sw y mo da : Int) : ℚ) * 2 ^ 1074 →
      average_distance (remaining_distance td) (remaining_days sw y mo da)
        = .ok (Int.ceil ((remaining_distance td : ℚ) /
            ((remaining_days sw y mo da : Int) : ℚ)))) := by
  refine ⟨?_, ?_, ?_⟩
  · intro hle
    unfold average_distance
    rw [if_neg (by omega)]
  · intro hpos
    unfold average_distance
    rw [if_pos hpos]
  · intro v hpos hdiv hexact
    unfold average_distance
    rw [if_pos hpos, hdiv]
    have h2 : floatCeil v =
        Int.ceil ((remaining_distance td : ℚ) /
          ((remaining_days sw y mo da : Int) : ℚ)) := by
      rw [floatCeil, intCeilDiv_eq_ceil v ((2 ^ 1074 : Nat) : Int)
            (by exact_mod_cast (by positivity : (0 : Nat) < 2 ^ 1074)), hexact]
      congr 1
      push_cast
      field_simp
      ring
    dsimp only
    rw [h2]

set_option maxRecDepth 20000 in
/-- C6 witness: December 30 with no swims (1 day left) and
`total_distance = 99000`; the quotient `1000 / 1` is exactly
representable, so the average is the exact `ceil(1000/1) = 1000`; on
December 31 (0 days left) the average is `0`. -/
theorem c6_average_distance_amended_witness :
    remaining_days [] 2024 12 31 ≤ 0 ∧
    (0 : Int) < remaining_days [] 2024 12 30 ∧
    intTrueDiv (remaining_distance 99000) (remaining_days [] 2024 12 30)
      = .ok ((1000 * 2 ^ 1074 : Nat) : Int) ∧
    average_distance (remaining_distance 99000) (remaining_days [] 2024 12 31)
      = .ok 0 ∧
    average_distance (remaining_distance 99000) (remaining_days [] 2024 12 30)
      = .ok (Int.ceil ((remaining_distance 99000 : ℚ) /
          ((remaining_days [] 2024 12 30 : Int) : ℚ))) := by
  have hexact : ((((1000 * 2 ^ 1074 : Nat) : Int) : ℚ)) =
      (remaining_distance 99000 : ℚ) /
        ((remaining_days [] 2024 12 30 : Int) : ℚ) * 2 ^ 1074 := by
    rw [show remaining_distance 99000 = 1000 from by decide,
        show remaining_days [] 2024 12 30 = 1 from by decide]
    push_cast
    ring
  exact ⟨by decide, by decide, by decide,
    (c6_average_distance_amended [] 2024 12 31 99000).1 (by decide),
    (c6_average_distance_amended [] 2024 12 30 99000).2.2
      ((1000 * 2 ^ 1074 : Nat) : Int) (by decide) (by decide) hexact⟩

/-- C7: `remaining_days` is the day count from today to December 31 of
today's year, decremented by exactly one iff some swim entry is dated
today. -/
theorem c7_remaining_days_decrement (sw : List SwimEntry) (y mo da : Int) :
    remaining_days sw y mo da =
      (daysFromCivil y 12 31 - daysFromCivil y mo da) -
        (if ∃ s ∈ sw, s.date = daysFromCivil y mo da then 1 else 0) := by
  unfold remaining_days
  by_cases h : ∃ s ∈ sw, s.date = daysFromCivil y mo da
  · rw [if_pos ((any_date_eq sw _).mpr h), if_pos h]
  · rw [if_neg (fun hc => h ((any_date_eq sw _).mp hc)), if_neg h]
    omega

/-- `findIdx?` misses when no element satisfies the test. -/
lemma findIdx?_none_of_all_false (p : α → Bool) :
    ∀ (l : List α), (∀ x ∈ l, p x = false) → ∀ i, l.findIdx? p i = none
  | [], _, _ => rfl
  | x :: xs, h, i => by
    rw [List.findIdx?_cons, h x (List.mem_cons_self x xs)]
    simp only [Bool.false_eq_true, if_false]
    exact findIdx?_none_of_all_false p xs (fun y hy => h y (List.mem_cons_of_mem x hy)) (i + 1)

/-- Reduction of `get_swim_date` on a datetime argument. -/
lemma get_swim_date_dt (day : String) (i tz : Int) :
    get_swim_date day (.dt i) tz =
      (if day = "Today" then .ok (dateOf (i + tz))
       else if day = "Yesterday" then .ok (dateOf (i + tz - 1440))
       else
         match day_name.findIdx? (fun n => n == day) with
         | none => .error .valueError
         | some w =>
           .ok (dateOf (i + tz - weekdayDiff (dateOf (i + tz)) (w : Int) * 1440))) :=
  rfl

/-- Reduction of `get_swim_date` on a string argument: parse, then behave
like the wall-clock value reinterpreted as a UTC instant. -/
lemma get_swim_date_str (day raw : String) (tz : Int) :
    get_swim_date day (.str raw) tz =
      match parseTimestamp raw with
      | none => .error .valueError
      | some (wall, _) => get_swim_date day (.dt wall) tz := by
  cases hp : parseTimestamp raw with
  | none => simp only [get_swim_date, hp]
  | some p =>
    obtain ⟨w, o⟩ := p
    simp only [get_swim_date, hp]

/-- `get_swim_date` on a weekday name: unfolded form of the result. -/
lemma get_swim_date_weekday_eq (day : String) (w : Nat)
    (hfind : day_name.findIdx? (fun n => n == day) = some w)
    (hT : day ≠ "Today") (hY : day ≠ "Yesterday") (i tz : Int) :
    get_swim_date day (.dt i) tz =
      .ok (dateOf (i + tz) - weekdayDiff (dateOf (i + tz)) (w : Int)) := by
  rw [get_swim_date_dt, if_neg hT, if_neg hY, hfind]
  dsimp only
  rw [dateOf_sub_days]

/-- Core of C2 for a single weekday token with known index. -/
lemma c2_core (day : String) (w : Nat) (hw : w < 7)
    (hfind : day_name.findIdx? (fun n => n == day) = some w)
    (hT : day ≠ "Today") (hY : day ≠ "Yesterday") (i tz : Int) :
    ∃ w2 r, day_name.findIdx? (fun n => n == day) = some w2 ∧
      get_swim_date day (.dt i) tz = .ok r ∧
      r < dateOf (i + tz) ∧ dateOf (i + tz) - 7 ≤ r ∧
      weekdayOf r = (w2 : Int) := by
  obtain ⟨hd1, hd2, hd3⟩ :=
    weekdayDiff_spec (dateOf (i + tz)) (w : Int)
      (Int.natCast_nonneg w) (by exact_mod_cast hw)
  exact ⟨w, dateOf (i + tz) - weekdayDiff (dateOf (i + tz)) (w : Int),
    hfind, get_swim_date_weekday_eq day w hfind hT hY i tz,
    by omega, by omega, hd3⟩

/-- C2: for every weekday name and every aware reference instant and
timezone, `get_swim_date` resolves to a date strictly before the local
reference date, at most 7 days earlier, whose weekday is the token's
weekday index — never the reference date itself. -/
theorem c2_weekday_strictly_before (day : String) (hday : day ∈ day_name)
    (i tz : Int) :
    ∃ w r, day_name.findIdx? (fun n => n == day) = some w ∧
      get_swim_date day (.dt i) tz = .ok r ∧
      r < dateOf (i + tz) ∧ dateOf (i + tz) - 7 ≤ r ∧
      weekdayOf r = (w : Int) := by
  fin_cases hday
  · exact c2_core _ 0 (by omega) (by decide) (by decide) (by decide) i tz
  · exact c2_core _ 1 (by omega) (by decide) (by decide) (by decide) i tz
  · exact c2_core _ 2 (by omega) (by decide) (by decide) (by decide) i tz
  · exact c2_core _ 3 (by omega) (by decide) (by decide) (by decide) i tz
  · exact c2_core _ 4 (by omega) (by decide) (by decide) (by decide) i tz
  · exact c2_core _ 5 (by omega) (by decide) (by decide) (by decide) i tz
  · exact c2_core _ 6 (by omega) (by decide) (by decide) (by decide) i tz

/-- C2 witness: `"Monday"` against the epoch instant in UTC. -/
theorem c2_weekday_strictly_before_witness :
    "Monday" ∈ day_name ∧
    ∃ w r, day_name.findIdx? (fun n => n == "Monday") = some w ∧
      get_swim_date "Monday" (.dt 0) 0 = .ok r ∧
      r < dateOf (0 + 0) ∧ dateOf (0 + 0) - 7 ≤ r ∧
      weekdayOf r = (w : Int) :=
  ⟨by decide, c2_weekday_strictly_before "Monday" (by decide) 0 0⟩

/-- C9: every day token outside the nine recognized spellings (including
lowercase variants) makes `get_swim_date` raise `ValueError`, whatever
the reference timestamp and timezone. -/
theorem c9_unknown_day_token_valueerror (day : String) (now : NowArg)
    (tz : Int) (h : day ∉ regexDayTokens) :
    get_swim_date day now tz = .error .valueError := by
  have hT : day ≠ "Today" := fun e => h (by rw [e]; decide)
  have hY : day ≠ "Yesterday" := fun e => h (by rw [e]; decide)
  have hall : ∀ n ∈ day_name, (n == day) = false := by
    intro n hn
    simp only [beq_eq_false_iff_ne, ne_eq]
    fin_cases hn <;> exact fun e => h (by rw [← e]; decide)
  have hfind : day_name.findIdx? (fun n => n == day) = none :=
    findIdx?_none_of_all_false _ day_name hall 0
  have hdt : ∀ i : Int, get_swim_date day (.dt i) tz = .error .valueError := by
    intro i
    rw [get_swim_date_dt, if_neg hT, if_neg hY, hfind]
  cases now with
  | dt i => exact hdt i
  | str raw =>
    rw [get_swim_date_str]
    cases hp : parseTimestamp raw with
    | none => rfl
    | some p =>
      obtain ⟨wall, off⟩ := p
      exact hdt wall

/-- C9 witness: the lowercase spelling `"monday"`. -/
theorem c9_unknown_day_token_valueerror_witness :
    "monday" ∉ regexDayTokens ∧
    get_swim_date "monday" (.dt 0) 0 = .error .valueError :=
  ⟨by decide, c9_unknown_day_token_valueerror "monday" (.dt 0) 0 (by decide)⟩

/-- C10: a string `now` is parsed and its offset replaced by UTC, so the
computation only depends on the parsed wall-clock value (first conjunct);
consequently two strings denoting the same instant with different offsets
can resolve to different dates (second conjunct: 23:00Z and the
equal-instant 01:00+02:00 of the next day). -/
theorem c10_string_offset_discarded :
    (∀ raw wall off tz day, parseTimestamp raw = some (wall, off) →
      get_swim_date day (.str raw) tz = get_swim_date day (.dt wall) tz) ∧
    (∃ s1 s2 : String, ∃ w1 o1 w2 o2 d1 d2 : Int,
      parseTimestamp s1 = some (w1, o1) ∧ parseTimestamp s2 = some (w2, o2) ∧
      w1 - o1 = w2 - o2 ∧ o1 ≠ o2 ∧
      get_swim_date "Today" (.str s1) 0 = .ok d1 ∧
      get_swim_date "Today" (.str s2) 0 = .ok d2 ∧ d1 ≠ d2) := by
  constructor
  · intro raw wall off tz day hp
    rw [get_swim_date_str, hp]
  · exact ⟨"2024-06-11T23:00:00+00:00", "2024-06-12T01:00:00+02:00",
      28635780, 0, 28635900, 120, 19885, 19886,
      by decide, by decide, by decide, by decide, by decide, by decide,
      by decide⟩

/-- C10 witness: the universally quantified conjunct applied to the
scenario timestamp. -/
theorem c10_string_offset_discarded_witness :
    parseTimestamp "2024-06-11T08:00:00Z" = some (28634880, 0) ∧
    get_swim_date "Monday" (.str "2024-06-11T08:00:00Z") 0 =
      get_swim_date "Monday" (.dt 28634880) 0 :=
  ⟨by decide,
   c10_string_offset_discarded.1 "2024-06-11T08:00:00Z" 28634880 0 0 "Monday"
     (by decide)⟩

/-- The scenario status of C3. -/
def c3status : Status :=
  ⟨"1", "2024-06-11T08:00:00Z",
   "<p>Monday swim: 40 laps for 1000m</p>", ["swim"], "u1"⟩

/-- C3: the scenario post (content
`<p>Monday swim: 40 laps for 1000m</p>`, tagged `swim`, created
`2024-06-11T08:00:00Z`, a Tuesday), evaluated in 2024 under any system
timezone in which 08:00 UTC still falls on June 11 locally, yields exactly
one entry: the prior Monday 2024-06-10 with laps `40` and distance
`1000`. -/
theorem c3_scenario_monday_entry (off : Int)
    (hlo : -480 ≤ off) (hhi : off < 960) :
    swims [c3status] 2024 off =
      .ok [⟨daysFromCivil 2024 6 10, "40", "1000", "u1"⟩] := by
  have hfilter : List.filter (swimFilter 2024) [c3status] = [c3status] := by
    decide
  have hsearch : searchSwim c3status.content.toList =
      some ("Monday", "40", "1000") := by decide
  have hfind : day_name.findIdx? (fun n => n == "Monday") = some 0 := by
    decide
  have hdt : dateOf (28634880 + off) = 19885 := by unfold dateOf; omega
  have hdate : get_swim_date "Monday" (.str "2024-06-11T08:00:00Z") off =
      .ok 19884 := by
    rw [get_swim_date_str, (by decide :
      parseTimestamp "2024-06-11T08:00:00Z" = some (28634880, 0))]
    dsimp only
    rw [get_swim_date_dt, if_neg (by decide), if_neg (by decide), hfind]
    dsimp only
    rw [show ((0 : Nat) : Int) = 0 from rfl, hdt,
        (by decide : weekdayDiff 19885 0 = 1)]
    unfold dateOf
    congr 1
    omega
  have hten : daysFromCivil 2024 6 10 = 19884 := by decide
  unfold swims
  rw [hfilter]
  unfold buildEntries
  rw [show entryOf off c3status = .ok ⟨19884, "40", "1000", "u1"⟩ from by
    unfold entryOf
    rw [hsearch]
    dsimp only
    rw [show c3status.created_at = "2024-06-11T08:00:00Z" from rfl, hdate]
    rfl]
  rw [hten]
  rfl

/-- C3 witness: the UTC system timezone. -/
theorem c3_scenario_monday_entry_witness :
    (-480 ≤ (0 : Int) ∧ (0 : Int) < 960) ∧
    swims [c3status] 2024 0 =
      .ok [⟨daysFromCivil 2024 6 10, "40", "1000", "u1"⟩] :=
  ⟨⟨by decide, by decide⟩, c3_scenario_monday_entry 0 (by decide) (by decide)⟩

/-- C4: when the webfinger document has no
`application/activity+json` self link, both the profile resolution and
the statuses fetch stop with the `StopIteration` failure (the case §7 of
the spec labels `ProtocolError`), after the webfinger GET only: the
request log shows that no directory page and no statuses page is ever
requested. -/
theorem c4_no_self_link_stops_resolution (wf : Webfinger)
    (dp : List (Page Profile)) (sp : List (Page Status))
    (h : selfLink? wf = none) :
    profileF wf dp [] = (.error .stopIteration, [Req.webfinger]) ∧
    statusesF wf dp sp [] = (.error .stopIteration, [Req.webfinger]) := by
  have hau : activity_url wf [] = (.error .stopIteration, [Req.webfinger]) := by
    unfold activity_url
    rw [h]
    rfl
  constructor
  · unfold profileF
    rw [hau]
  · unfold statusesF
    rw [hau]

/-- C4 witness: a webfinger document whose only link is not an
activity+json self link. -/
theorem c4_no_self_link_stops_resolution_witness :
    selfLink? ⟨[⟨"self", "text/html", "https://h/u"⟩]⟩ = none ∧
    profileF ⟨[⟨"self", "text/html", "https://h/u"⟩]⟩ [] []
      = (.error .stopIteration, [Req.webfinger]) ∧
    statusesF ⟨[⟨"self", "text/html", "https://h/u"⟩]⟩ [] [] []
      = (.error .stopIteration, [Req.webfinger]) :=
  ⟨by decide,
   c4_no_self_link_stops_resolution ⟨[⟨"self", "text/html", "https://h/u"⟩]⟩
     [] [] (by decide)⟩

/-! ## Dict lemmas -/

/-- Presence of a key, as `any`, agrees with `dlookup`. -/
lemma any_key_eq_isSome (d : List (String × α)) (k : String) :
    (d.any fun p => p.1 == k) = (dlookup d k).isSome := by
  induction d with
  | nil => rfl
  | cons x rest ih =>
    rw [List.any_cons, dlookup]
    by_cases hx : x.1 = k
    · simp [hx]
    · simp [hx, ih]

/-- `dlookup` distributes over append, first hit wins. -/
lemma dlookup_append (d1 d2 : List (String × α)) (k : String) :
    dlookup (d1 ++ d2) k = (dlookup d1 k).or (dlookup d2 k) := by
  induction d1 with
  | nil => simp [dlookup]
  | cons x rest ih =>
    rw [List.cons_append, dlookup, dlookup]
    by_cases hx : x.1 = k
    · simp [hx]
    · simp [hx, ih]

/-- Replacing the value at key `k` hits at `k` when the key is present. -/
lemma dlookup_map_replace_eq (d : List (String × α)) (k : String) (v : α)
    (hany : (d.any fun p => p.1 == k) = true) :
    dlookup (d.map fun p => if p.1 == k then (k, v) else p) k = some v := by
  induction d with
  | nil => simp at hany
  | cons x rest ih =>
    rw [List.map_cons, dlookup]
    by_cases hx : x.1 = k
    · simp [hx]
    · have hrest : (rest.any fun p => p.1 == k) = true := by
        simpa [List.any_cons, hx] using hany
      simpa [hx] using ih hrest

/-- Replacing the value at key `k` leaves other keys unchanged. -/
lemma dlookup_map_replace_ne (d : List (String × α)) (k k2 : String) (v : α)
    (hne : k2 ≠ k) :
    dlookup (d.map fun p => if p.1 == k then (k, v) else p) k2 = dlookup d k2 := by
  induction d with
  | nil => rfl
  | cons x rest ih =>
    rw [List.map_cons, dlookup, dlookup]
    by_cases hx : x.1 = k
    · have hk2 : ¬(k = k2) := fun e => hne e.symm
      have hx2 : ¬(x.1 = k2) := by rw [hx]; exact hk2
      simpa [hx, hk2, hx2] using ih
    · by_cases hx2 : x.1 = k2
      · simp [hx, hx2, hne]
      · simp only [hx, hx2, beq_iff_eq, if_false, ite_false]
        simpa using ih

/-- The Python-dict update law for lookup. -/
lemma dlookup_dinsert (d : List (String × α)) (k k2 : String) (v : α) :
    dlookup (dinsert d k v) k2 = if k2 = k then some v else dlookup d k2 := by
  unfold dinsert
  by_cases hany : (d.any fun p => p.1 == k) = true
  · rw [if_pos hany]
    by_cases he : k2 = k
    · rw [if_pos he, he, dlookup_map_replace_eq d k v hany]
    · rw [if_neg he, dlookup_map_replace_ne d k k2 v he]
  · rw [if_neg hany, dlookup_append]
    have hnone : dlookup d k = none := by
      rw [any_key_eq_isSome] at hany
      cases h : dlookup d k
      · rfl
      · rw [h] at hany; simp at hany
    by_cases he : k2 = k
    · rw [if_pos he, he, hnone]
      simp [dlookup]
    · rw [if_neg he]
      have h1 : dlookup [(k, v)] k2 = none := by
        have : ¬((k, v).1 = k2) := fun e => he e.symm
        simp [dlookup, this]
      rw [h1, Option.or_none]

/-- The Python-dict update law for size. -/
lemma dinsert_length (d : List (String × α)) (k : String) (v : α) :
    (dinsert d k v).length =
      if (d.any fun p => p.1 == k) = true then d.length else d.length + 1 := by
  unfold dinsert
  by_cases hany : (d.any fun p => p.1 == k) = true
  · rw [if_pos hany, if_pos hany, List.length_map]
  · rw [if_neg hany, if_neg hany, List.length_append]
    rfl

/-- Merging records with pairwise-distinct fresh keys appends them in
order. -/
lemma foldl_dinsert_nodup (key : α → String) :
    ∀ (l : List α) (acc : List (String × α)),
      (∀ r ∈ l, dlookup acc (key r) = none) →
      (l.map key).Nodup →
      l.foldl (fun d r => dinsert d (key r) r) acc =
        acc ++ l.map (fun r => (key r, r))
  | [], acc, _, _ => by simp
  | r :: rest, acc, hfresh, hnd => by
    obtain ⟨hne, hnd2⟩ :
        (∀ x ∈ rest, ¬key x = key r) ∧ (rest.map key).Nodup := by
      simpa using hnd
    have hany : (acc.any fun p => p.1 == key r) = false := by
      rw [any_key_eq_isSome, hfresh r (List.mem_cons_self r rest)]
      rfl
    have hstep : dinsert acc (key r) r = acc ++ [(key r, r)] := by
      unfold dinsert
      rw [hany]
      simp
    rw [List.foldl_cons, hstep,
        foldl_dinsert_nodup key rest (acc ++ [(key r, r)])
          (by
            intro r2 hr2
            rw [dlookup_append, hfresh r2 (List.mem_cons_of_mem r hr2)]
            have h2 : ¬((key r, r).1 = key r2) :=
              fun e => hne r2 hr2 e.symm
            simp [dlookup, h2])
          hnd2]
    simp

/-- Lookup after the merge loop: the most recently fetched record with
the key wins, else whatever the accumulator held. -/
lemma dlookup_foldl_dinsert (key : α → String) :
    ∀ (l : List α) (acc : List (String × α)) (k : String),
      dlookup (l.foldl (fun d r => dinsert d (key r) r) acc) k =
        ((l.reverse.find? fun r => key r == k).map (fun r => r)).or
          (dlookup acc k)
  | [], acc, k => by simp
  | r :: rest, acc, k => by
    rw [List.foldl_cons, dlookup_foldl_dinsert key rest _ k,
        dlookup_dinsert, List.reverse_cons, List.find?_append]
    by_cases he : k = key r
    · have h1 : (List.find? (fun r2 => key r2 == k) [r]) = some r := by
        simp [List.find?_cons, he]
      rw [h1]
      cases List.find? (fun r2 => key r2 == k) rest.reverse <;> simp [he]
    · have h1 : (List.find? (fun r2 => key r2 == k) [r]) = none := by
        have : ¬(key r = k) := fun e => he e.symm
        simp [List.find?_cons, this]
      rw [h1]
      cases List.find? (fun r2 => key r2 == k) rest.reverse <;> simp [he]

/-! ## Pagination lemmas -/

/-- On a well-formed page sequence the loop requests each page exactly
once, in order, and merges all records into the accumulator. -/
lemma paginate_spec (key : α → String) (mk : Nat → Req) :
    ∀ (pages : List (Page α)), chain pages = true →
    ∀ (i : Nat) (acc : List (String × α)) (log : List Req),
      paginate key mk pages i acc log =
        (.ok ((flatRecords pages).foldl (fun d r => dinsert d (key r) r) acc),
         log ++ (List.range' i pages.length).map mk)
  | [], hch, _, _, _ => by simp [chain] at hch
  | [p], hch, i, acc, log => by
    have hnext : p.hasNext = false := by
      simpa [chain] using hch
    unfold paginate
    rw [hnext]
    simp [flatRecords]
  | p :: q :: rest, hch, i, acc, log => by
    have hch2 : p.hasNext = true ∧ chain (q :: rest) = true := by
      simpa [chain] using hch
    unfold paginate
    rw [hch2.1, if_pos rfl,
        paginate_spec key mk (q :: rest) hch2.2 (i + 1) _ _]
    have h1 : flatRecords (p :: q :: rest) = p.records ++ flatRecords (q :: rest) := by
      simp [flatRecords]
    have hlog : log ++ [mk i] ++ List.map mk (List.range' (i + 1) (q :: rest).length)
        = log ++ List.map mk (List.range' i (p :: q :: rest).length) := by
      show _ = log ++ List.map mk (List.range' i ((q :: rest).length + 1))
      rw [List.range'_succ, List.map_cons]
      simp
    rw [h1, List.foldl_append, hlog]

/-- C5: on any well-formed page sequence the directory fetch issues
exactly one GET per page in order (after the webfinger GET used to derive
the URL) and stops with the first page lacking a `next` link; the result
merges every record into one mapping keyed by `uri` in which the
latest-fetched record for a key wins; when all uris are distinct the
mapping has exactly one entry per record (e.g. 24 for pages of
10 + 10 + 4). -/
theorem c5_directory_pagination (wf : Webfinger) (l : WFLink)
    (dp : List (Page Profile))
    (hl : selfLink? wf = some l) (hchain : chain dp = true) :
    directory wf dp [] =
      (.ok ((flatRecords dp).foldl (fun d r => dinsert d r.uri r) []),
       Req.webfinger :: (List.range' 0 dp.length).map Req.directory) ∧
    (∀ k, dlookup ((flatRecords dp).foldl (fun d r => dinsert d r.uri r) []) k
        = ((flatRecords dp).reverse.find? fun r => r.uri == k).map
            (fun r => r)) ∧
    (((flatRecords dp).map fun r => r.uri).Nodup →
      ((flatRecords dp).foldl (fun d r => dinsert d r.uri r) []).length
        = (flatRecords dp).length) := by
  refine ⟨?_, ?_, ?_⟩
  · unfold directory activity_url
    rw [hl]
    dsimp only
    rw [paginate_spec (fun p => p.uri) Req.directory dp hchain 0 [] _]
    simp
  · intro k
    rw [dlookup_foldl_dinsert (fun p => p.uri) (flatRecords dp) [] k]
    rw [show dlookup ([] : List (String × Profile)) k = none from rfl,
        Option.or_none]
  · intro hnd
    rw [foldl_dinsert_nodup (fun p => p.uri) (flatRecords dp) []
          (fun _ _ => rfl) hnd]
    simp

/-- The concrete 10 + 10 + 4 directory pages of the C5 scenario, with 24
pairwise distinct uris. -/
def c5pages : List (Page Profile) :=
  [⟨(List.range 10).map (fun n => ⟨"u" ++ toString n, toString n⟩), true⟩,
   ⟨(List.range 10).map (fun n => ⟨"u" ++ toString (10 + n), toString (10 + n)⟩), true⟩,
   ⟨(List.range 4).map (fun n => ⟨"u" ++ toString (20 + n), toString (20 + n)⟩), false⟩]

/-- A webfinger document with a valid self link, for the C5 witness. -/
def c5wf : Webfinger := ⟨[⟨"self", "application/activity+json", "https://h/u"⟩]⟩

/-- The self link of `c5wf`. -/
def c5link : WFLink := ⟨"self", "application/activity+json", "https://h/u"⟩

/-- C5 witness: three pages of 10, 10 and 4 records, fetched once each,
yielding 24 merged entries. -/
theorem c5_directory_pagination_witness :
    selfLink? c5wf = some c5link ∧
    chain c5pages = true ∧
    directory c5wf c5pages [] =
      (.ok ((flatRecords c5pages).foldl (fun d r => dinsert d r.uri r) []),
       Req.webfinger :: (List.range' 0 c5pages.length).map Req.directory) ∧
    dlookup ((flatRecords c5pages).foldl (fun d r => dinsert d r.uri r) []) "u7"
      = some ⟨"u7", "7"⟩ ∧
    ((flatRecords c5pages).foldl (fun d r => dinsert d r.uri r) []).length = 24 :=
  ⟨by decide, by decide,
   (c5_directory_pagination c5wf c5link c5pages (by decide) (by decide)).1,
   ((c5_directory_pagination c5wf c5link c5pages (by decide) (by decide)).2.1
       "u7").trans (by decide),
   ((c5_directory_pagination c5wf c5link c5pages (by decide) (by decide)).2.2
       (by decide)).trans (by decide)⟩

/-! ## Permutation invariance of the statistics -/

lemma insStable_perm (le : α → α → Bool) (x : α) :
    ∀ l : List α, (insStable le x l).Perm (x :: l)
  | [] => List.Perm.refl _
  | y :: ys => by
    unfold insStable
    by_cases h : le y x = true
    · rw [if_pos h]
      exact ((insStable_perm le x ys).cons y).trans (List.Perm.swap x y ys)
    · rw [if_neg h]

lemma pySorted_foldl_perm (le : α → α → Bool) :
    ∀ (l acc : List α),
      (l.foldl (fun acc x => insStable le x acc) acc).Perm (l ++ acc)
  | [], acc => List.Perm.refl _
  | a :: rest, acc => by
    rw [List.foldl_cons]
    exact (pySorted_foldl_perm le rest (insStable le a acc)).trans
      ((List.Perm.append_left rest (insStable_perm le a acc)).trans
        List.perm_middle)

/-- Python's stable sort permutes its input. -/
lemma pySorted_perm (le : α → α → Bool) (l : List α) :
    (pySorted le l).Perm l := by
  unfold pySorted
  simpa using pySorted_foldl_perm le l []

/-- A permutation preserves `any`. -/
lemma perm_any (l1 l2 : List α) (hp : l1.Perm l2) (p : α → Bool) :
    l1.any p = l2.any p := by
  cases h1 : l1.any p <;> cases h2 : l2.any p <;> try rfl
  · exfalso
    obtain ⟨x, hx, hpx⟩ := List.any_eq_true.mp h2
    have hc : l1.any p = true :=
      List.any_eq_true.mpr ⟨x, hp.mem_iff.mpr hx, hpx⟩
    rw [h1] at hc
    cases hc
  · exfalso
    obtain ⟨x, hx, hpx⟩ := List.any_eq_true.mp h1
    have hc : l2.any p = true :=
      List.any_eq_true.mpr ⟨x, hp.mem_iff.mp hx, hpx⟩
    rw [h2] at hc
    cases hc

/-- A successful comprehension run means every status produced an entry,
and the result is the entry list in order. -/
lemma buildEntries_ok_elim (tz : Int) :
    ∀ (l : List Status) (sw : List SwimEntry),
      buildEntries tz l = .ok sw →
      (∀ st ∈ l, ∃ e, entryOf tz st = .ok e) ∧
      sw = l.filterMap (fun st => (entryOf tz st).toOption)
  | [], sw, h => by
    refine ⟨fun st hst => absurd hst (List.not_mem_nil st), ?_⟩
    rw [List.filterMap_nil]
    cases h
    rfl
  | st :: rest, sw, h => by
    rw [buildEntries] at h
    cases he : entryOf tz st with
    | error e => rw [he] at h; cases h
    | ok e =>
      rw [he] at h
      cases hr : buildEntries tz rest with
      | error e2 => rw [hr] at h; cases h
      | ok es =>
        rw [hr] at h
        cases h
        obtain ⟨hall, hes⟩ := buildEntries_ok_elim tz rest es hr
        refine ⟨?_, ?_⟩
        · intro st2 hst2
          rcases List.mem_cons.mp hst2 with rfl | hmem
          · exact ⟨e, he⟩
          · exact hall st2 hmem
        · rw [List.filterMap_cons, he, ← hes]
          rfl

/-- Conversely, if every status produces an entry the comprehension
succeeds with the entry list in order. -/
lemma buildEntries_ok_intro (tz : Int) :
    ∀ (l : List Status), (∀ st ∈ l, ∃ e, entryOf tz st = .ok e) →
      buildEntries tz l =
        .ok (l.filterMap fun st => (entryOf tz st).toOption)
  | [], _ => rfl
  | st :: rest, hall => by
    obtain ⟨e, he⟩ := hall st (List.mem_cons_self st rest)
    rw [buildEntries, he,
        buildEntries_ok_intro tz rest
          (fun st2 h2 => hall st2 (List.mem_cons_of_mem st h2)),
        List.filterMap_cons, he]
    rfl

/-- A successful `swims` run on a permuted status list succeeds with a
permuted entry list. -/
lemma swims_ok_perm (sts1 sts2 : List Status) (y tz : Int)
    (hp : sts1.Perm sts2) (sw1 : List SwimEntry)
    (h : swims sts1 y tz = .ok sw1) :
    ∃ sw2, swims sts2 y tz = .ok sw2 ∧ sw1.Perm sw2 := by
  unfold swims at h ⊢
  cases hb : buildEntries tz (sts1.filter (swimFilter y)) with
  | error e => rw [hb] at h; cases h
  | ok entries =>
    rw [hb] at h
    cases h
    obtain ⟨hall, hes⟩ := buildEntries_ok_elim tz _ _ hb
    have hpf := hp.filter (swimFilter y)
    have hall2 : ∀ st ∈ sts2.filter (swimFilter y), ∃ e, entryOf tz st = .ok e :=
      fun st hst => hall st (hpf.mem_iff.mpr hst)
    rw [buildEntries_ok_intro tz _ hall2]
    refine ⟨_, rfl, ?_⟩
    have hperm2 : entries.Perm
        ((sts2.filter (swimFilter y)).filterMap
          fun st => (entryOf tz st).toOption) := by
      rw [hes]
      exact hpf.filterMap _
    exact (pySorted_perm _ entries).trans
      (hperm2.trans ((pySorted_perm _ _).symm))

/-- `sum(float(...))` succeeds whenever every entry parses (the float
value depends on the fold order, so only existence is claimed). -/
lemma sumLaps_ok_of_all :
    ∀ (l : List SwimEntry), (∀ s ∈ l, (parseFloat s.laps).isSome) →
    ∀ acc : PyFloat, ∃ v, sumLaps acc l = .ok v
  | [], _, acc => ⟨acc, rfl⟩
  | s :: rest, hall, acc => by
    obtain ⟨q, hq⟩ :=
      Option.isSome_iff_exists.mp (hall s (List.mem_cons_self s rest))
    obtain ⟨v, hv⟩ := sumLaps_ok_of_all rest
      (fun s2 h2 => hall s2 (List.mem_cons_of_mem s h2)) (fadd acc q)
    refine ⟨v, ?_⟩
    rw [sumLaps, hq]
    exact hv

/-- `sum(float(...))` raises `ValueError` at the first bad entry. -/
lemma sumLaps_err :
    ∀ (l : List SwimEntry), (∃ s ∈ l, parseFloat s.laps = none) →
    ∀ acc : PyFloat, sumLaps acc l = .error .valueError
  | [], hex, _ => by simp at hex
  | s :: rest, hex, acc => by
    rw [sumLaps]
    cases hq : parseFloat s.laps with
    | none => rfl
    | some q =>
      obtain ⟨s2, hs2, hn⟩ := hex
      rcases List.mem_cons.mp hs2 with rfl | hmem
      · rw [hq] at hn; cases hn
      · exact sumLaps_err rest ⟨s2, hmem, hn⟩ (fadd acc q)

/-- A successful `total_laps` stays successful under permutation of the
entries (its value is a float left fold, so it may change). -/
lemma total_laps_ok_perm (sw1 sw2 : List SwimEntry) (hp : sw1.Perm sw2)
    (tl : PyFloat) (h : total_laps sw1 = .ok tl) :
    ∃ tl2, total_laps sw2 = .ok tl2 := by
  by_cases hall : ∀ s ∈ sw1, (parseFloat s.laps).isSome
  · exact sumLaps_ok_of_all sw2
      (fun s hs => hall s (hp.mem_iff.mpr hs)) (.finite 0)
  · push_neg at hall
    obtain ⟨s, hs, hn⟩ := hall
    rw [total_laps,
        sumLaps_err sw1 ⟨s, hs, Option.not_isSome_iff_eq_none.mp hn⟩
          (.finite 0)] at h
    cases h

/-- `sum(int(...))` when every entry parses. -/
lemma sumDistance_all_ok :
    ∀ (l : List SwimEntry), (∀ s ∈ l, (parseIntStr s.distance).isSome) →
    ∀ acc : Int,
      sumDistance acc l =
        .ok (acc + (l.filterMap fun s => parseIntStr s.distance).sum)
  | [], _, acc => by simp [sumDistance]
  | s :: rest, hall, acc => by
    obtain ⟨n, hn⟩ :=
      Option.isSome_iff_exists.mp (hall s (List.mem_cons_self s rest))
    rw [sumDistance, hn]
    dsimp only
    rw [sumDistance_all_ok rest
          (fun s2 h2 => hall s2 (List.mem_cons_of_mem s h2)) (acc + n)]
    congr 1
    rw [List.filterMap_cons, hn]
    dsimp only
    rw [List.sum_cons, add_assoc]

/-- `sum(int(...))` raises `ValueError` at the first bad entry. -/
lemma sumDistance_err :
    ∀ (l : List SwimEntry), (∃ s ∈ l, parseIntStr s.distance = none) →
    ∀ acc : Int, sumDistance acc l = .error .valueError
  | [], hex, _ => by simp at hex
  | s :: rest, hex, acc => by
    rw [sumDistance]
    cases hn : parseIntStr s.distance with
    | none => rfl
    | some n =>
      obtain ⟨s2, hs2, hnone⟩ := hex
      rcases List.mem_cons.mp hs2 with rfl | hmem
      · rw [hn] at hnone; cases hnone
      · exact sumDistance_err rest ⟨s2, hmem, hnone⟩ (acc + n)

/-- `total_distance` is invariant under permutation of the entries. -/
lemma total_distance_perm (sw1 sw2 : List SwimEntry) (hp : sw1.Perm sw2)
    (td : Int) (h : total_distance sw1 = .ok td) :
    total_distance sw2 = .ok td := by
  by_cases hall : ∀ s ∈ sw1, (parseIntStr s.distance).isSome
  · have hall2 : ∀ s ∈ sw2, (parseIntStr s.distance).isSome :=
      fun s hs => hall s (hp.mem_iff.mpr hs)
    rw [total_distance, sumDistance_all_ok sw2 hall2 0]
    rw [total_distance, sumDistance_all_ok sw1 hall 0] at h
    rwa [(hp.filterMap fun s => parseIntStr s.distance).sum_eq] at h
  · push_neg at hall
    obtain ⟨s, hs, hn⟩ := hall
    rw [total_distance,
        sumDistance_err sw1 ⟨s, hs, Option.not_isSome_iff_eq_none.mp hn⟩ 0] at h
    cases h

/-- `remaining_days` is invariant under permutation of the entries. -/
lemma remaining_days_perm (sw1 sw2 : List SwimEntry) (hp : sw1.Perm sw2)
    (y mo da : Int) :
    remaining_days sw1 y mo da = remaining_days sw2 y mo da := by
  unfold remaining_days
  dsimp only
  rw [perm_any sw1 sw2 hp (fun s => s.date == daysFromCivil y mo da)]

set_option maxRecDepth 20000 in
/-- A successful statistics computation on permuted status values
succeeds and agrees on every field except the float `total_laps`. -/
lemma computeStats_perm_fields (sts1 sts2 : List Status) (y mo da tz : Int)
    (hp : sts1.Perm sts2) (st1 : Stats)
    (h : computeStats sts1 y mo da tz = .ok st1) :
    ∃ st2, computeStats sts2 y mo da tz = .ok st2 ∧
      st2.total_distance = st1.total_distance ∧
      st2.remaining_distance = st1.remaining_distance ∧
      st2.remaining_days = st1.remaining_days ∧
      st2.required_average_distance = st1.required_average_distance ∧
      st2.required_average_laps = st1.required_average_laps := by
  unfold computeStats at h ⊢
  cases hs1 : swims sts1 y tz with
  | error e => rw [hs1] at h; cases h
  | ok sw1 =>
    rw [hs1] at h
    dsimp only at h
    obtain ⟨sw2, hs2, hsw⟩ := swims_ok_perm sts1 sts2 y tz hp sw1 hs1
    rw [hs2]
    dsimp only
    cases htl : total_laps sw1 with
    | error e => rw [htl] at h; cases h
    | ok tl =>
      rw [htl] at h
      dsimp only at h
      obtain ⟨tl2, htl2⟩ := total_laps_ok_perm sw1 sw2 hsw tl htl
      rw [htl2]
      dsimp only
      cases htd : total_distance sw1 with
      | error e => rw [htd] at h; cases h
      | ok td =>
        rw [htd] at h
        dsimp only at h
        rw [total_distance_perm sw1 sw2 hsw td htd]
        dsimp only
        rw [← remaining_days_perm sw1 sw2 hsw y mo da]
        cases had : average_distance (remaining_distance td)
            (remaining_days sw1 y mo da) with
        | error e => rw [had] at h; cases h
        | ok ad =>
          rw [had] at h
          dsimp only at h
          dsimp only
          cases hal : average_laps ad with
          | error e => rw [hal] at h; cases h
          | ok al =>
            rw [hal] at h
            dsimp only at h
            dsimp only
            cases h
            exact ⟨⟨tl2, td, remaining_distance td,
              remaining_days sw1 y mo da, ad, al⟩, rfl, rfl, rfl, rfl, rfl, rfl⟩

/-! ## Fetch-layer reduction lemmas -/

/-- `find?` is permutation-invariant when at most one element matches. -/
lemma find?_perm_unique (p : α → Bool) (l1 l2 : List α) (hp : l1.Perm l2)
    (huniq : ∀ x ∈ l1, ∀ y ∈ l1, p x = true → p y = true → x = y) :
    l1.find? p = l2.find? p := by
  cases h1 : l1.find? p with
  | none =>
    have hnone := List.find?_eq_none.mp h1
    symm
    rw [List.find?_eq_none]
    exact fun x hx => hnone x (hp.mem_iff.mpr hx)
  | some a =>
    have hpa := List.find?_some h1
    have hma := List.mem_of_find?_eq_some h1
    cases h2 : l2.find? p with
    | none =>
      exact absurd hpa ((List.find?_eq_none.mp h2) a (hp.mem_iff.mp hma))
    | some b =>
      have hpb := List.find?_some h2
      have hmb := hp.mem_iff.mpr (List.mem_of_find?_eq_some h2)
      rw [huniq a hma b hmb hpa hpb]

lemma activity_url_some (wf : Webfinger) (l : WFLink) (log : List Req)
    (hl : selfLink? wf = some l) :
    activity_url wf log = (.ok l.href, log ++ [Req.webfinger]) := by
  unfold activity_url
  rw [hl]

lemma statusesF_no_link (wf : Webfinger) (dp : List (Page Profile))
    (sp : List (Page Status)) (log : List Req) (h : selfLink? wf = none) :
    statusesF wf dp sp log = (.error .stopIteration, log ++ [Req.webfinger]) := by
  have hau : activity_url wf log = (.error .stopIteration, log ++ [Req.webfinger]) := by
    unfold activity_url
    rw [h]
  unfold statusesF
  rw [hau]

lemma directory_eq (wf : Webfinger) (l : WFLink) (dp : List (Page Profile))
    (log : List Req) (hl : selfLink? wf = some l) (hch : chain dp = true) :
    directory wf dp log =
      (.ok ((flatRecords dp).foldl (fun d r => dinsert d r.uri r) []),
       (log ++ [Req.webfinger]) ++ (List.range' 0 dp.length).map Req.directory) := by
  unfold directory
  rw [activity_url_some wf l log hl]
  dsimp only
  rw [paginate_spec (fun p => p.uri) Req.directory dp hch 0 [] _]

lemma profileF_eq (wf : Webfinger) (l : WFLink) (dp : List (Page Profile))
    (log : List Req) (hl : selfLink? wf = some l) (hch : chain dp = true) :
    profileF wf dp log =
      (match dlookup ((flatRecords dp).foldl (fun d r => dinsert d r.uri r) [])
          l.href with
       | some p => .ok p
       | none => .error .stopIteration,
       ((log ++ [Req.webfinger]) ++ [Req.webfinger]) ++
         (List.range' 0 dp.length).map Req.directory) := by
  unfold profileF
  rw [activity_url_some wf l log hl]
  dsimp only
  rw [directory_eq wf l dp _ hl hch]
  dsimp only
  cases dlookup ((flatRecords dp).foldl (fun d r => dinsert d r.uri r) [])
      l.href <;> rfl

lemma statusesF_ok (wf : Webfinger) (l : WFLink) (dp : List (Page Profile))
    (sp : List (Page Status)) (hl : selfLink? wf = some l)
    (hchd : chain dp = true) (p : Profile)
    (hp : dlookup ((flatRecords dp).foldl (fun d r => dinsert d r.uri r) [])
        l.href = some p)
    (hchs : chain sp = true) :
    ∃ log2, statusesF wf dp sp [] =
      (.ok ((flatRecords sp).foldl (fun d r => dinsert d r.id r) []), log2) := by
  unfold statusesF
  rw [activity_url_some wf l [] hl]
  dsimp only
  rw [profileF_eq wf l dp _ hl hchd, hp]
  dsimp only
  rw [paginate_spec (fun s => s.id) Req.statuses sp hchs 0 [] _]
  exact ⟨_, rfl⟩

lemma statusesF_no_profile (wf : Webfinger) (l : WFLink)
    (dp : List (Page Profile)) (sp : List (Page Status))
    (hl : selfLink? wf = some l) (hchd : chain dp = true)
    (hnone : dlookup ((flatRecords dp).foldl (fun d r => dinsert d r.uri r) [])
        l.href = none) :
    ∃ log2, statusesF wf dp sp [] = (.error .stopIteration, log2) := by
  unfold statusesF
  rw [activity_url_some wf l [] hl]
  dsimp only
  rw [profileF_eq wf l dp _ hl hchd, hnone]
  exact ⟨_, rfl⟩

/-- The dict built from records with distinct keys lists exactly those
records as its values, in fetch order. -/
lemma dvalues_foldl_nodup (key : α → String) (l : List α)
    (hnd : (l.map key).Nodup) :
    dvalues (l.foldl (fun d r => dinsert d (key r) r) []) = l := by
  rw [foldl_dinsert_nodup key l [] (fun _ _ => rfl) hnd]
  simp only [dvalues, List.nil_append, List.map_map]
  exact List.map_id l

/-- Concrete fixture shared by the C8 counterexample and witness. -/
def c8wf : Webfinger := ⟨[⟨"self", "application/activity+json", "U"⟩]⟩

def c8dp : List (Page Profile) := [⟨[⟨"U", "7"⟩], false⟩]

def c8stA : Status := ⟨"1", "2024-01-01T10:00:00Z", "<p>x</p>", [], "a"⟩

def c8stB : Status := ⟨"2", "2024-01-02T10:00:00Z", "<p>y</p>", [], "b"⟩

def c8sp1 : List (Page Status) := [⟨[c8stA], true⟩, ⟨[c8stB], false⟩]

def c8sp2 : List (Page Status) := [⟨[c8stB, c8stA], false⟩]

/-- Three same-date swim posts with lap counts 0.1, 0.2 and 0.3. -/
def c8cA : Status :=
  ⟨"1", "2026-05-05T10:00:00Z", "<p>Today swim: 0.1 laps for 10m</p>",
   ["swim"], "a"⟩

def c8cB : Status :=
  ⟨"2", "2026-05-05T10:00:00Z", "<p>Today swim: 0.2 laps for 10m</p>",
   ["swim"], "b"⟩

def c8cC : Status :=
  ⟨"3", "2026-05-05T10:00:00Z", "<p>Today swim: 0.3 laps for 10m</p>",
   ["swim"], "c"⟩

def c8csp1 : List (Page Status) :=
  [⟨[c8cA], true⟩, ⟨[c8cB], true⟩, ⟨[c8cC], false⟩]

def c8csp2 : List (Page Status) := [⟨[c8cC, c8cB, c8cA], false⟩]

set_option maxRecDepth 20000 in
/-- C8 counterexample: three swim posts sharing a date keep their page
order through the stable date sort, so shuffled pages reorder the
binary64 lap sum: 0.1 + 0.2 + 0.3 left-folds to 0.6000000000000001
(scaled 5404319552844596·2¹⁰²¹) but 0.3 + 0.2 + 0.1 to 0.6 (scaled
5404319552844595·2¹⁰²¹) — the two runs return different `Stats`, so the
claim as stated fails on these worlds. -/
theorem c8_float_sum_order_counterexample :
    chain c8csp1 = true ∧ chain c8csp2 = true ∧
    (flatRecords c8csp1).Perm (flatRecords c8csp2) ∧
    ((flatRecords c8csp1).map fun s => s.id).Nodup ∧
    pipelineStats c8wf c8dp c8csp1 2026 12 31 0 =
      .ok ⟨.finite ((5404319552844596 * 2 ^ 1021 : Nat) : Int),
           30, 99970, 0, 0, 0⟩ ∧
    pipelineStats c8wf c8dp c8csp2 2026 12 31 0 =
      .ok ⟨.finite ((5404319552844595 * 2 ^ 1021 : Nat) : Int),
           30, 99970, 0, 0, 0⟩ ∧
    (⟨.finite ((5404319552844596 * 2 ^ 1021 : Nat) : Int),
      30, 99970, 0, 0, 0⟩ : Stats) ≠
      ⟨.finite ((5404319552844595 * 2 ^ 1021 : Nat) : Int),
       30, 99970, 0, 0, 0⟩ := by
  refine ⟨by decide, by decide, by decide, by decide, ?_, ?_, by decide⟩
  · decide
  · decide

/-- C8 (amended): re-running the pipeline on identical pages returns the
identical `Stats`; under different page boundaries or shuffled page order
with the same records (for the directory and the statuses), a successful
run still succeeds and agrees on `total_distance`, `remaining_distance`,
`remaining_days`, `required_average_distance` and
`required_average_laps` — every field except the float `total_laps`,
whose binary64 left fold follows the stable date order and so may change
with the order of same-date entries. -/
theorem c8_statistics_shuffle_amended
    (wf : Webfinger) (dp1 dp2 : List (Page Profile))
    (sp1 sp2 : List (Page Status)) (y mo da tz : Int) (st1 : Stats)
    (hchd1 : chain dp1 = true) (hchd2 : chain dp2 = true)
    (hdperm : (flatRecords dp1).Perm (flatRecords dp2))
    (hdnd : ((flatRecords dp1).map fun r => r.uri).Nodup)
    (hchs1 : chain sp1 = true) (hchs2 : chain sp2 = true)
    (hsperm : (flatRecords sp1).Perm (flatRecords sp2))
    (hsnd : ((flatRecords sp1).map fun s => s.id).Nodup)
    (h : pipelineStats wf dp1 sp1 y mo da tz = .ok st1) :
    (dp1 = dp2 → sp1 = sp2 →
      pipelineStats wf dp2 sp2 y mo da tz = .ok st1) ∧
    ∃ st2, pipelineStats wf dp2 sp2 y mo da tz = .ok st2 ∧
      st2.total_distance = st1.total_distance ∧
      st2.remaining_distance = st1.remaining_distance ∧
      st2.remaining_days = st1.remaining_days ∧
      st2.required_average_distance = st1.required_average_distance ∧
      st2.required_average_laps = st1.required_average_laps := by
  refine ⟨fun hd hs => by rw [← hd, ← hs]; exact h, ?_⟩
  cases hl : selfLink? wf with
  | none =>
    exfalso
    unfold pipelineStats at h
    rw [statusesF_no_link wf dp1 sp1 [] hl] at h
    cases h
  | some l =>
    have hlookupEq :
        dlookup ((flatRecords dp1).foldl (fun d r => dinsert d r.uri r) []) l.href
          = dlookup ((flatRecords dp2).foldl (fun d r => dinsert d r.uri r) [])
              l.href := by
      rw [dlookup_foldl_dinsert (fun p => p.uri) (flatRecords dp1) [] l.href,
          dlookup_foldl_dinsert (fun p => p.uri) (flatRecords dp2) [] l.href]
      have hrevperm : (flatRecords dp1).reverse.Perm (flatRecords dp2).reverse :=
        ((flatRecords dp1).reverse_perm.trans hdperm).trans
          (flatRecords dp2).reverse_perm.symm
      rw [find?_perm_unique (fun r => r.uri == l.href) _ _ hrevperm
        (by
          intro x hx y hy hpx hpy
          have hx2 := List.mem_reverse.mp hx
          have hy2 := List.mem_reverse.mp hy
          exact List.inj_on_of_nodup_map hdnd hx2 hy2
            ((beq_iff_eq.mp hpx).trans (beq_iff_eq.mp hpy).symm))]
    cases hp : dlookup ((flatRecords dp1).foldl (fun d r => dinsert d r.uri r) [])
        l.href with
    | none =>
      exfalso
      obtain ⟨log2, heq⟩ := statusesF_no_profile wf l dp1 sp1 hl hchd1 hp
      unfold pipelineStats at h
      rw [heq] at h
      cases h
    | some p =>
      have hp2 : dlookup ((flatRecords dp2).foldl (fun d r => dinsert d r.uri r)
          []) l.href = some p := by
        rw [← hlookupEq]
        exact hp
      obtain ⟨loga, heqa⟩ := statusesF_ok wf l dp1 sp1 hl hchd1 p hp hchs1
      obtain ⟨logb, heqb⟩ := statusesF_ok wf l dp2 sp2 hl hchd2 p hp2 hchs2
      unfold pipelineStats at h ⊢
      rw [heqa] at h
      rw [heqb]
      dsimp only at h ⊢
      have hsnd2 : ((flatRecords sp2).map fun s => s.id).Nodup :=
        ((hsperm.map fun s => s.id).nodup_iff).mp hsnd
      rw [dvalues_foldl_nodup (fun s => s.id) (flatRecords sp1) hsnd] at h
      rw [dvalues_foldl_nodup (fun s => s.id) (flatRecords sp2) hsnd2]
      exact computeStats_perm_fields _ _ y mo da tz hsperm st1 h

set_option maxRecDepth 20000 in
/-- C8 witness: the same two (non-swim) statuses served as two pages or
as one reversed page; the run succeeds on both and all non-float fields
agree. -/
theorem c8_statistics_shuffle_amended_witness :
    (chain c8dp = true ∧ chain c8sp1 = true ∧ chain c8sp2 = true ∧
     (flatRecords c8sp1).Perm (flatRecords c8sp2) ∧
     ((flatRecords c8sp1).map fun s => s.id).Nodup ∧
     pipelineStats c8wf c8dp c8sp1 2024 12 31 0 =
       .ok ⟨.finite 0, 0, 100000, 0, 0, 0⟩) ∧
    (∃ st2, pipelineStats c8wf c8dp c8sp2 2024 12 31 0 = .ok st2 ∧
      st2.total_distance = 0 ∧ st2.remaining_distance = 100000 ∧
      st2.remaining_days = 0 ∧ st2.required_average_distance = 0 ∧
      st2.required_average_laps = 0) :=
  ⟨⟨by decide, by decide, by decide, by decide, by decide, by decide⟩,
   (c8_statistics_shuffle_amended c8wf c8dp c8dp c8sp1 c8sp2 2024 12 31 0
     ⟨.finite 0, 0, 100000, 0, 0, 0⟩
     (by decide) (by decide) (List.Perm.refl _) (by decide)
     (by decide) (by decide) (by decide) (by decide) (by decide)).2⟩

end MastodonTools
